import Mathlib

/-!
Verification of the reference-counted `smart_ptr<T>` handle implemented twice in
this repository:

* `Project 2 - Smart Pointers (PC)/Project 2 - Smart Pointers (PC).cpp`
* `Smart Pointers Project 2/main.cpp`

The embedding is a shallow one.  Raw C++ pointers become optional addresses
(`Option Nat`, `none` = `nullptr`) into an explicit heap that keeps one store
for values of type `T` (the `new T` allocations) and one store for the shared
reference counters (the `new int` allocations).  Each `smart_ptr` object is a
pair of such optional addresses, exactly mirroring the two data members

    T*   ptr_;   // pointer to the referred object
    int* ref_;   // pointer to a reference count

Every member function of the class is translated to a function on
`Heap T × Ptr`.  A C++ operation that dereferences an invalid pointer
(null or dangling) has undefined behaviour; such an operation is embedded as
returning `none`.  `delete` on an already absent cell is modelled as clearing
the cell (the claims about double release are settled through the handles'
own cleared references, which is the mechanism the code itself relies on).

Both source files define the class identically except for the move-assignment
operator, so the operations of the first file are defined once in namespace
`SmartPointers` and the second file's variant is transcribed in the inner
namespace `MainCpp`.
-/

namespace SmartPointers

/-- The heap: a store of `T` values (targets of `ptr_`) and a store of `int`
reference counters (targets of `ref_`), each indexed by addresses `Nat`.
A cell holding `none` is unallocated or freed.  `nextV` / `nextC` are the next
fresh addresses; allocation never reuses an address, so a freed cell stays
distinguishable from a live one. -/
structure Heap (T : Type) where
  vals : Nat → Option T
  refs : Nat → Option Int
  nextV : Nat
  nextC : Nat

/-- The heap with no allocations. -/
def emptyHeap (T : Type) : Heap T :=
  ⟨fun _ => none, fun _ => none, 0, 0⟩

namespace Heap

variable {T : Type}

/-- Read a value cell (`*ptr_`); `none` when the cell is not live. -/
def readVal (h : Heap T) (a : Nat) : Option T := h.vals a

/-- Read a counter cell (`*ref_`); `none` when the cell is not live. -/
def readRef (h : Heap T) (c : Nat) : Option Int := h.refs c

/-- Overwrite a counter cell (`*ref_ = n`). -/
def writeRef (h : Heap T) (c : Nat) (n : Int) : Heap T :=
  { h with refs := fun x => if x = c then some n else h.refs x }

/-- `new T(v)`: allocate a fresh value cell, returning the new heap and the
address. -/
def allocVal (h : Heap T) (v : T) : Heap T × Nat :=
  ({ h with vals := fun x => if x = h.nextV then some v else h.vals x,
            nextV := h.nextV + 1 },
   h.nextV)

/-- `new int(n)`: allocate a fresh counter cell, returning the new heap and
the address. -/
def allocRef (h : Heap T) (n : Int) : Heap T × Nat :=
  ({ h with refs := fun x => if x = h.nextC then some n else h.refs x,
            nextC := h.nextC + 1 },
   h.nextC)

/-- `delete ptr_` where `ptr_` may be null: deleting a null pointer is a
no-op, otherwise the value cell becomes absent. -/
def freeVal (h : Heap T) (a : Option Nat) : Heap T :=
  match a with
  | none => h
  | some i => { h with vals := fun x => if x = i then none else h.vals x }

/-- `delete ref_` on a non-null counter pointer: the counter cell becomes
absent. -/
def freeRef (h : Heap T) (c : Nat) : Heap T :=
  { h with refs := fun x => if x = c then none else h.refs x }

end Heap

/-- The two data members of a `smart_ptr<T>` object: `ptr_` (address of the
referred object or null) and `ref_` (address of the shared reference count or
null). -/
structure Ptr where
  ptr_ : Option Nat
  ref_ : Option Nat
deriving DecidableEq, Repr

/-- `struct null_ptr_exception : public std::exception`, thrown by
`operator*` and `operator->` on a null `ptr_`. -/
structure null_ptr_exception where
  mk ::
deriving DecidableEq, Repr

/-- `what()` of `null_ptr_exception`. -/
def null_ptr_exception.what (_ : null_ptr_exception) : String :=
  "Attempting to access a null pointer"

variable {T : Type}

/-- `smart_ptr() noexcept : ptr_(nullptr), ref_(new int(0))`. -/
def mkDefault (h : Heap T) : Heap T × Ptr :=
  ((h.allocRef 0).1, ⟨none, some (h.allocRef 0).2⟩)

/-- `explicit smart_ptr(T*& raw_ptr) noexcept : ptr_(raw_ptr), ref_(new int(1))`.
The caller's raw pointer (possibly null) is adopted as is. -/
def mkFromRaw (h : Heap T) (raw_ptr : Option Nat) : Heap T × Ptr :=
  ((h.allocRef 1).1, ⟨raw_ptr, some (h.allocRef 1).2⟩)

/-- `explicit smart_ptr(T*&& raw_ptr) noexcept`: same initialisation as the
lvalue overload, and additionally `raw_ptr = nullptr;` — the third component
is the caller's raw pointer variable after the call. -/
def mkFromRawMove (h : Heap T) (raw_ptr : Option Nat) :
    Heap T × Ptr × Option Nat :=
  ((h.allocRef 1).1, ⟨raw_ptr, some (h.allocRef 1).2⟩, none)

/-- `smart_ptr(const smart_ptr& rhs) noexcept : ptr_(rhs.ptr_), ref_(rhs.ref_)
{ if (ptr_) (*ref_)++; }`.  Incrementing through an invalid `ref_` is
undefined behaviour, embedded as `none`. -/
def mkCopy (h : Heap T) (rhs : Ptr) : Option (Heap T × Ptr) :=
  match rhs.ptr_ with
  | none => some (h, ⟨rhs.ptr_, rhs.ref_⟩)
  | some _ =>
    match rhs.ref_ with
    | none => none
    | some c =>
      match h.readRef c with
      | none => none
      | some n => some (h.writeRef c (n + 1), ⟨rhs.ptr_, rhs.ref_⟩)

/-- `smart_ptr(smart_ptr&& rhs) noexcept : ptr_(rhs.ptr_), ref_(rhs.ref_)
{ rhs.ptr_ = nullptr; rhs.ref_ = nullptr; }`.  Returns the heap (unchanged),
the new object, and `rhs` after the call. -/
def mkMove (h : Heap T) (rhs : Ptr) : Heap T × Ptr × Ptr :=
  (h, ⟨rhs.ptr_, rhs.ref_⟩, ⟨none, none⟩)

/-- Private member `void release()`:
`if (ref_ && --(*ref_) == 0) { delete ptr_; delete ref_; }
 ptr_ = nullptr; ref_ = nullptr;`.
Decrementing through a dangling `ref_` is undefined behaviour (`none`). -/
def release (h : Heap T) (p : Ptr) : Option (Heap T × Ptr) :=
  match p.ref_ with
  | none => some (h, ⟨none, none⟩)
  | some c =>
    match h.readRef c with
    | none => none
    | some n =>
      if n - 1 = 0 then
        some (((h.writeRef c (n - 1)).freeVal p.ptr_).freeRef c, ⟨none, none⟩)
      else
        some (h.writeRef c (n - 1), ⟨none, none⟩)

/-- `smart_ptr& operator=(const smart_ptr& rhs) noexcept`.  The flag
`sameObject` embeds the address test `this != &rhs`: when `this == &rhs` the
body does nothing; otherwise it calls `release()`, copies both members from
`rhs`, and increments the count when `ptr_` is non-null. -/
def copyAssign (h : Heap T) (lhs rhs : Ptr) (sameObject : Bool) :
    Option (Heap T × Ptr) :=
  if sameObject then some (h, lhs)
  else
    match release h lhs with
    | none => none
    | some (h1, _) =>
      match rhs.ptr_ with
      | none => some (h1, ⟨rhs.ptr_, rhs.ref_⟩)
      | some _ =>
        match rhs.ref_ with
        | none => none
        | some c =>
          match h1.readRef c with
          | none => none
          | some n => some (h1.writeRef c (n + 1), ⟨rhs.ptr_, rhs.ref_⟩)

/-- `smart_ptr& operator=(smart_ptr&& rhs) noexcept` of the PC variant:
when `this != &rhs`, `release()`, take both members from `rhs`, and clear
both `rhs.ptr_` and `rhs.ref_`.  (The `cout` diagnostic line has no effect on
the state.)  Returns the heap, the assigned object, and `rhs` after the
call. -/
def moveAssign (h : Heap T) (lhs rhs : Ptr) (sameObject : Bool) :
    Option (Heap T × Ptr × Ptr) :=
  if sameObject then some (h, lhs, rhs)
  else
    match release h lhs with
    | none => none
    | some (h1, _) => some (h1, ⟨rhs.ptr_, rhs.ref_⟩, ⟨none, none⟩)

/-- `bool clone()`:
`if (!ptr_ || *ref_ == 1) return false;
 T* new_ptr = new T(*ptr_); --(*ref_); ptr_ = new_ptr; ref_ = new int(1);
 return true;`.
Reads through invalid pointers are undefined behaviour (`none`). -/
def clone (h : Heap T) (p : Ptr) : Option (Heap T × Ptr × Bool) :=
  match p.ptr_ with
  | none => some (h, p, false)
  | some a =>
    match p.ref_ with
    | none => none
    | some c =>
      match h.readRef c with
      | none => none
      | some n =>
        if n = 1 then some (h, p, false)
        else
          match h.readVal a with
          | none => none
          | some v =>
            some ((((h.allocVal v).1.writeRef c (n - 1)).allocRef 1).1,
                  ⟨some (h.allocVal v).2,
                   some ((h.allocVal v).1.writeRef c (n - 1)).nextC⟩,
                  true)

/-- `int ref_count() const noexcept { return *ref_; }`.  When `ref_` is null
or dangling the read is undefined behaviour (`none`). -/
def ref_count (h : Heap T) (p : Ptr) : Option Int :=
  match p.ref_ with
  | none => none
  | some c => h.readRef c

/-- `T& operator*() const { if (!ptr_) throw null_ptr_exception(); return *ptr_; }`.
The returned reference is the address of the referred object. -/
def opStar (p : Ptr) : Except null_ptr_exception Nat :=
  match p.ptr_ with
  | none => .error ⟨⟩
  | some a => .ok a

/-- `T* operator->() const { if (!ptr_) throw null_ptr_exception(); return ptr_; }`. -/
def opArrow (p : Ptr) : Except null_ptr_exception Nat :=
  match p.ptr_ with
  | none => .error ⟨⟩
  | some a => .ok a

/-- `~smart_ptr() { release(); }` — the destructor just runs `release`. -/
def destructor (h : Heap T) (p : Ptr) : Option (Heap T × Ptr) :=
  release h p

namespace MainCpp

/-- `smart_ptr()` of `main.cpp` (identical text to the PC variant). -/
def mkDefault (h : Heap T) : Heap T × Ptr :=
  ((h.allocRef 0).1, ⟨none, some (h.allocRef 0).2⟩)

/-- `explicit smart_ptr(T* &raw_ptr)` of `main.cpp`. -/
def mkFromRaw (h : Heap T) (raw_ptr : Option Nat) : Heap T × Ptr :=
  ((h.allocRef 1).1, ⟨raw_ptr, some (h.allocRef 1).2⟩)

/-- `explicit smart_ptr(T* &&raw_ptr)` of `main.cpp`. -/
def mkFromRawMove (h : Heap T) (raw_ptr : Option Nat) :
    Heap T × Ptr × Option Nat :=
  ((h.allocRef 1).1, ⟨raw_ptr, some (h.allocRef 1).2⟩, none)

/-- Copy constructor of `main.cpp`. -/
def mkCopy (h : Heap T) (rhs : Ptr) : Option (Heap T × Ptr) :=
  match rhs.ptr_ with
  | none => some (h, ⟨rhs.ptr_, rhs.ref_⟩)
  | some _ =>
    match rhs.ref_ with
    | none => none
    | some c =>
      match h.readRef c with
      | none => none
      | some n => some (h.writeRef c (n + 1), ⟨rhs.ptr_, rhs.ref_⟩)

/-- Move constructor of `main.cpp`. -/
def mkMove (h : Heap T) (rhs : Ptr) : Heap T × Ptr × Ptr :=
  (h, ⟨rhs.ptr_, rhs.ref_⟩, ⟨none, none⟩)

/-- `void release()` of `main.cpp` (identical text to the PC variant). -/
def release (h : Heap T) (p : Ptr) : Option (Heap T × Ptr) :=
  match p.ref_ with
  | none => some (h, ⟨none, none⟩)
  | some c =>
    match h.readRef c with
    | none => none
    | some n =>
      if n - 1 = 0 then
        some (((h.writeRef c (n - 1)).freeVal p.ptr_).freeRef c, ⟨none, none⟩)
      else
        some (h.writeRef c (n - 1), ⟨none, none⟩)

/-- Copy assignment of `main.cpp`. -/
def copyAssign (h : Heap T) (lhs rhs : Ptr) (sameObject : Bool) :
    Option (Heap T × Ptr) :=
  if sameObject then some (h, lhs)
  else
    match release h lhs with
    | none => none
    | some (h1, _) =>
      match rhs.ptr_ with
      | none => some (h1, ⟨rhs.ptr_, rhs.ref_⟩)
      | some _ =>
        match rhs.ref_ with
        | none => none
        | some c =>
          match h1.readRef c with
          | none => none
          | some n => some (h1.writeRef c (n + 1), ⟨rhs.ptr_, rhs.ref_⟩)

/-- `smart_ptr& operator=(smart_ptr&& rhs)` of `main.cpp`.  Its body writes
`rhs.ptr_ = nullptr; rhs.red_ = nullptr;` — `red_` is a misspelling of
`ref_`, so the source object's count pointer `ref_` is NOT cleared; the
member function is only well formed as long as it is never instantiated,
and its effect on the modelled members is that `rhs.ref_` keeps its value. -/
def moveAssign (h : Heap T) (lhs rhs : Ptr) (sameObject : Bool) :
    Option (Heap T × Ptr × Ptr) :=
  if sameObject then some (h, lhs, rhs)
  else
    match release h lhs with
    | none => none
    | some (h1, _) => some (h1, ⟨rhs.ptr_, rhs.ref_⟩, ⟨none, rhs.ref_⟩)

/-- `bool clone()` of `main.cpp`. -/
def clone (h : Heap T) (p : Ptr) : Option (Heap T × Ptr × Bool) :=
  match p.ptr_ with
  | none => some (h, p, false)
  | some a =>
    match p.ref_ with
    | none => none
    | some c =>
      match h.readRef c with
      | none => none
      | some n =>
        if n = 1 then some (h, p, false)
        else
          match h.readVal a with
          | none => none
          | some v =>
            some ((((h.allocVal v).1.writeRef c (n - 1)).allocRef 1).1,
                  ⟨some (h.allocVal v).2,
                   some ((h.allocVal v).1.writeRef c (n - 1)).nextC⟩,
                  true)

/-- `int ref_count() const` of `main.cpp`. -/
def ref_count (h : Heap T) (p : Ptr) : Option Int :=
  match p.ref_ with
  | none => none
  | some c => h.readRef c

/-- `T& operator*() const` of `main.cpp`. -/
def opStar (p : Ptr) : Except null_ptr_exception Nat :=
  match p.ptr_ with
  | none => .error ⟨⟩
  | some a => .ok a

/-- `T* operator->() const` of `main.cpp`. -/
def opArrow (p : Ptr) : Except null_ptr_exception Nat :=
  match p.ptr_ with
  | none => .error ⟨⟩
  | some a => .ok a

/-- `~smart_ptr()` of `main.cpp`. -/
def destructor (h : Heap T) (p : Ptr) : Option (Heap T × Ptr) :=
  release h p

end MainCpp



/-- A program state: the heap together with the multiset of all currently
live `smart_ptr` objects. -/
structure State (T : Type) where
  heap : Heap T
  handles : Multiset Ptr

/-- The initial program state: empty heap, no live handles. -/
def initState (T : Type) : State T :=
  ⟨emptyHeap T, 0⟩

/-- Number of live handles whose `ref_` member points at counter cell `c`
(the size of the alias group of that cell). -/
def nShare (hs : Multiset Ptr) (c : Nat) : ℕ :=
  Multiset.card (hs.filter (fun q => q.ref_ = some c))

variable {T : Type}

/-- One public operation of the `smart_ptr` class, acting on a program
state.  `nullOK` tells whether the raw-pointer constructor may be handed a
null pointer.  An operation whose C++ execution would be undefined (the
embedded function returns `none`) has no transition.  Self-assignment
(`this == &rhs`) leaves the state unchanged, so it needs no transition of
its own. -/
inductive Step (nullOK : Bool) : State T → State T → Prop where
  | defaultCtor (s : State T) (h' : Heap T) (p : Ptr)
      (he : mkDefault s.heap = (h', p)) :
      Step nullOK s ⟨h', p ::ₘ s.handles⟩
  | rawCtor (s : State T) (a : Nat) (h' : Heap T) (p : Ptr)
      (he : mkFromRaw s.heap (some a) = (h', p)) :
      Step nullOK s ⟨h', p ::ₘ s.handles⟩
  | rawCtorNull (s : State T) (h' : Heap T) (p : Ptr)
      (hb : nullOK = true)
      (he : mkFromRaw s.heap none = (h', p)) :
      Step nullOK s ⟨h', p ::ₘ s.handles⟩
  | copyCtor (s : State T) (q : Ptr) (h' : Heap T) (p : Ptr)
      (hq : q ∈ s.handles)
      (he : mkCopy s.heap q = some (h', p)) :
      Step nullOK s ⟨h', p ::ₘ s.handles⟩
  | moveCtor (s : State T) (q : Ptr) (rest : Multiset Ptr)
      (hm : s.handles = q ::ₘ rest)
      (h' : Heap T) (p q' : Ptr)
      (he : mkMove s.heap q = (h', p, q')) :
      Step nullOK s ⟨h', p ::ₘ q' ::ₘ rest⟩
  | copyAssignStep (s : State T) (tgt src : Ptr) (rest : Multiset Ptr)
      (hm : s.handles = tgt ::ₘ src ::ₘ rest)
      (h' : Heap T) (r : Ptr)
      (he : copyAssign s.heap tgt src false = some (h', r)) :
      Step nullOK s ⟨h', r ::ₘ src ::ₘ rest⟩
  | moveAssignStep (s : State T) (tgt src : Ptr) (rest : Multiset Ptr)
      (hm : s.handles = tgt ::ₘ src ::ₘ rest)
      (h' : Heap T) (r r' : Ptr)
      (he : moveAssign s.heap tgt src false = some (h', r, r')) :
      Step nullOK s ⟨h', r ::ₘ r' ::ₘ rest⟩
  | cloneStep (s : State T) (p : Ptr) (rest : Multiset Ptr)
      (hm : s.handles = p ::ₘ rest)
      (h' : Heap T) (r : Ptr) (b : Bool)
      (he : clone s.heap p = some (h', r, b)) :
      Step nullOK s ⟨h', r ::ₘ rest⟩
  | destructStep (s : State T) (p : Ptr) (rest : Multiset Ptr)
      (hm : s.handles = p ::ₘ rest)
      (h' : Heap T) (p' : Ptr)
      (he : release s.heap p = some (h', p')) :
      Step nullOK s ⟨h', rest⟩

/-- States reachable from the initial state through the public operations. -/
inductive Reach (nullOK : Bool) : State T → Prop where
  | init : Reach nullOK (initState T)
  | step {s s' : State T} :
      Reach nullOK s → Step nullOK s s' → Reach nullOK s'

/-- The alias-group invariant maintained by every reachable state: counter
addresses at or above `nextC` are unallocated, every live handle's counter
address is below `nextC`, handles sharing a counter cell agree on their
`ptr_` member, and a counter cell referenced by a non-empty handle holds
exactly the number of live handles referencing it. -/
structure Inv (H : Heap T) (M : Multiset Ptr) : Prop where
  heapWF : ∀ a, H.nextC ≤ a → H.readRef a = none
  refLt : ∀ p ∈ M, ∀ c, p.ref_ = some c → c < H.nextC
  unif : ∀ p ∈ M, ∀ q ∈ M, ∀ c,
    p.ref_ = some c → q.ref_ = some c → p.ptr_ = q.ptr_
  cnt : ∀ p ∈ M, ∀ c a, p.ref_ = some c → p.ptr_ = some a →
    H.readRef c = some ((nShare M c : ℕ) : ℤ)

/-- Additional invariant available when the raw-pointer constructor is never
handed a null pointer: the counter cell of an empty handle holds a
non-positive number (so decrementing it never reaches 0, hence never frees it
from under another alias of the same cell). -/
def EmptyCellNonPos (H : Heap T) (M : Multiset Ptr) : Prop :=
  ∀ p ∈ M, ∀ c, p.ref_ = some c → p.ptr_ = none →
    ∃ m, H.readRef c = some m ∧ m ≤ 0

/-- Example heap for concrete checks: one value cell (address 0, holding 42)
and one counter cell (address 0, holding 2), the situation of two aliasing
handles `⟨some 0, some 0⟩`. -/
def exHeapShared : Heap Int :=
  ⟨fun x => if x = 0 then some 42 else none,
   fun x => if x = 0 then some 2 else none, 1, 1⟩

/-- Example heap: one value cell (address 0, holding 42) and one counter
cell (address 0, holding 1), the situation of a sole owner. -/
def exHeapOwn1 : Heap Int :=
  ⟨fun x => if x = 0 then some 42 else none,
   fun x => if x = 0 then some 1 else none, 1, 1⟩

/-- Example heap: a default constructor call followed by a raw-value
construction from value address 5. -/
def exHeapMA : Heap Int := (mkFromRaw (mkDefault (emptyHeap Int)).1 (some 5)).1

/-- The default-constructed handle living in `exHeapMA`. -/
def exTgt : Ptr := (mkDefault (emptyHeap Int)).2

/-- The raw-constructed handle living in `exHeapMA`. -/
def exSrc : Ptr := (mkFromRaw (mkDefault (emptyHeap Int)).1 (some 5)).2

/-- Reachable state: one handle constructed from a null raw pointer. -/
def nullRawState : State Int :=
  ⟨(mkFromRaw (emptyHeap Int) none).1,
   (mkFromRaw (emptyHeap Int) none).2 ::ₘ (initState Int).handles⟩

/-- Reachable state: one default-constructed handle. -/
def defaultState : State Int :=
  ⟨(mkDefault (emptyHeap Int)).1,
   (mkDefault (emptyHeap Int)).2 ::ₘ (initState Int).handles⟩

/-- Reachable state: one handle constructed from a raw value at address 0. -/
def rawState : State Int :=
  ⟨(mkFromRaw (emptyHeap Int) (some 0)).1,
   (mkFromRaw (emptyHeap Int) (some 0)).2 ::ₘ (initState Int).handles⟩

/-- Reachable state: after additionally move-constructing a new handle from
the handle of `rawState`; the moved-from source (both members cleared) is
still a live object. -/
def movedState : State Int :=
  ⟨(mkMove rawState.heap (mkFromRaw (emptyHeap Int) (some 0)).2).1,
   (mkMove rawState.heap (mkFromRaw (emptyHeap Int) (some 0)).2).2.1 ::ₘ
     (mkMove rawState.heap (mkFromRaw (emptyHeap Int) (some 0)).2).2.2 ::ₘ
       (initState Int).handles⟩

namespace Heap

variable {T : Type}

@[simp] theorem readRef_writeRef_self (h : Heap T) (c : Nat) (n : Int) :
    (h.writeRef c n).readRef c = some n := by
  simp [readRef, writeRef]

theorem readRef_writeRef_ne (h : Heap T) (c c' : Nat) (n : Int) (hne : c' ≠ c) :
    (h.writeRef c n).readRef c' = h.readRef c' := by
  simp [readRef, writeRef, hne]

@[simp] theorem nextC_writeRef (h : Heap T) (c : Nat) (n : Int) :
    (h.writeRef c n).nextC = h.nextC := rfl

@[simp] theorem nextV_writeRef (h : Heap T) (c : Nat) (n : Int) :
    (h.writeRef c n).nextV = h.nextV := rfl

@[simp] theorem readVal_writeRef (h : Heap T) (c : Nat) (n : Int) (a : Nat) :
    (h.writeRef c n).readVal a = h.readVal a := rfl

@[simp] theorem snd_allocRef (h : Heap T) (n : Int) :
    (h.allocRef n).2 = h.nextC := rfl

@[simp] theorem nextC_allocRef (h : Heap T) (n : Int) :
    (h.allocRef n).1.nextC = h.nextC + 1 := rfl

@[simp] theorem nextV_allocRef (h : Heap T) (n : Int) :
    (h.allocRef n).1.nextV = h.nextV := rfl

@[simp] theorem readRef_allocRef_self (h : Heap T) (n : Int) :
    (h.allocRef n).1.readRef h.nextC = some n := by
  simp [readRef, allocRef]

theorem readRef_allocRef_ne (h : Heap T) (n : Int) (c : Nat)
    (hne : c ≠ h.nextC) : (h.allocRef n).1.readRef c = h.readRef c := by
  simp [readRef, allocRef, hne]

@[simp] theorem readVal_allocRef (h : Heap T) (n : Int) (a : Nat) :
    (h.allocRef n).1.readVal a = h.readVal a := rfl

@[simp] theorem snd_allocVal (h : Heap T) (v : T) :
    (h.allocVal v).2 = h.nextV := rfl

@[simp] theorem nextV_allocVal (h : Heap T) (v : T) :
    (h.allocVal v).1.nextV = h.nextV + 1 := rfl

@[simp] theorem nextC_allocVal (h : Heap T) (v : T) :
    (h.allocVal v).1.nextC = h.nextC := rfl

@[simp] theorem readVal_allocVal_self (h : Heap T) (v : T) :
    (h.allocVal v).1.readVal h.nextV = some v := by
  simp [readVal, allocVal]

theorem readVal_allocVal_ne (h : Heap T) (v : T) (a : Nat)
    (hne : a ≠ h.nextV) : (h.allocVal v).1.readVal a = h.readVal a := by
  simp [readVal, allocVal, hne]

@[simp] theorem readRef_allocVal (h : Heap T) (v : T) (c : Nat) :
    (h.allocVal v).1.readRef c = h.readRef c := rfl

@[simp] theorem readRef_freeRef_self (h : Heap T) (c : Nat) :
    (h.freeRef c).readRef c = none := by
  simp [readRef, freeRef]

theorem readRef_freeRef_ne (h : Heap T) (c c' : Nat) (hne : c' ≠ c) :
    (h.freeRef c).readRef c' = h.readRef c' := by
  simp [readRef, freeRef, hne]

@[simp] theorem nextC_freeRef (h : Heap T) (c : Nat) :
    (h.freeRef c).nextC = h.nextC := rfl

@[simp] theorem nextV_freeRef (h : Heap T) (c : Nat) :
    (h.freeRef c).nextV = h.nextV := rfl

@[simp] theorem readVal_freeRef (h : Heap T) (c : Nat) (a : Nat) :
    (h.freeRef c).readVal a = h.readVal a := rfl

@[simp] theorem readRef_freeVal (h : Heap T) (a : Option Nat) (c : Nat) :
    (h.freeVal a).readRef c = h.readRef c := by
  cases a <;> rfl

@[simp] theorem nextC_freeVal (h : Heap T) (a : Option Nat) :
    (h.freeVal a).nextC = h.nextC := by
  cases a <;> rfl

@[simp] theorem nextV_freeVal (h : Heap T) (a : Option Nat) :
    (h.freeVal a).nextV = h.nextV := by
  cases a <;> rfl

@[simp] theorem readVal_freeVal_self (h : Heap T) (i : Nat) :
    (h.freeVal (some i)).readVal i = none := by
  simp [readVal, freeVal]

theorem readVal_freeVal_ne (h : Heap T) (i a : Nat) (hne : a ≠ i) :
    (h.freeVal (some i)).readVal a = h.readVal a := by
  simp [readVal, freeVal, hne]

@[simp] theorem readVal_emptyHeap (a : Nat) :
    (emptyHeap T).readVal a = none := rfl

@[simp] theorem readRef_emptyHeap (a : Nat) :
    (emptyHeap T).readRef a = none := rfl

end Heap

theorem nShare_cons (p : Ptr) (hs : Multiset Ptr) (c : Nat) :
    nShare (p ::ₘ hs) c =
      (if p.ref_ = some c then 1 else 0) + nShare hs c := by
  by_cases h : p.ref_ = some c
  · simp [nShare, Multiset.filter_cons_of_pos _ h, h, Nat.add_comm]
  · simp [nShare, Multiset.filter_cons_of_neg _ h, h]

theorem nShare_pos (hs : Multiset Ptr) (p : Ptr) (hp : p ∈ hs) (c : Nat)
    (hc : p.ref_ = some c) : 1 ≤ nShare hs c := by
  have hmem : p ∈ hs.filter (fun q => q.ref_ = some c) :=
    Multiset.mem_filter.mpr ⟨hp, hc⟩
  have := Multiset.card_pos_iff_exists_mem.mpr ⟨p, hmem⟩
  simpa [nShare] using this

/-- Case analysis of a successful `release`: the handle's own references are
always cleared; the heap is unchanged when `ref_` was null, otherwise the
counter is decremented, and when it hits 0 both the value and the counter
cells are additionally freed. -/
theorem release_spec (h : Heap T) (p : Ptr) (h' : Heap T) (p' : Ptr)
    (he : release h p = some (h', p')) :
    p' = ⟨none, none⟩ ∧
      ((p.ref_ = none ∧ h' = h) ∨
        ∃ c n, p.ref_ = some c ∧ h.readRef c = some n ∧
          ((¬n - 1 = 0 ∧ h' = h.writeRef c (n - 1)) ∨
            (n - 1 = 0 ∧
              h' = ((h.writeRef c (n - 1)).freeVal p.ptr_).freeRef c))) := by
  cases hr : p.ref_ with
  | none =>
    simp only [release, hr, Option.some.injEq, Prod.mk.injEq] at he
    exact ⟨he.2.symm, Or.inl ⟨rfl, he.1.symm⟩⟩
  | some c =>
    cases hn : h.readRef c with
    | none => simp [release, hr, hn] at he
    | some n =>
      by_cases hz : n - 1 = 0
      · simp only [release, hr, hn, if_pos hz, Option.some.injEq,
          Prod.mk.injEq] at he
        exact ⟨he.2.symm, Or.inr ⟨c, n, rfl, hn, Or.inr ⟨hz, he.1.symm⟩⟩⟩
      · simp only [release, hr, hn, if_neg hz, Option.some.injEq,
          Prod.mk.injEq] at he
        exact ⟨he.2.symm, Or.inr ⟨c, n, rfl, hn, Or.inl ⟨hz, he.1.symm⟩⟩⟩

/-- Case analysis of a successful copy construction: the new object copies
both members, and the counter is incremented exactly when the source is
non-empty. -/
theorem mkCopy_spec (h : Heap T) (rhs : Ptr) (h' : Heap T) (r : Ptr)
    (he : mkCopy h rhs = some (h', r)) :
    r = ⟨rhs.ptr_, rhs.ref_⟩ ∧
      ((rhs.ptr_ = none ∧ h' = h) ∨
        ∃ a c n, rhs.ptr_ = some a ∧ rhs.ref_ = some c ∧
          h.readRef c = some n ∧ h' = h.writeRef c (n + 1)) := by
  cases hp : rhs.ptr_ with
  | none =>
    simp only [mkCopy, hp, Option.some.injEq, Prod.mk.injEq] at he
    exact ⟨he.2.symm, Or.inl ⟨rfl, he.1.symm⟩⟩
  | some a =>
    cases hr : rhs.ref_ with
    | none => simp [mkCopy, hp, hr] at he
    | some c =>
      cases hn : h.readRef c with
      | none => simp [mkCopy, hp, hr, hn] at he
      | some n =>
        simp only [mkCopy, hp, hr, hn, Option.some.injEq, Prod.mk.injEq] at he
        exact ⟨he.2.symm, Or.inr ⟨a, c, n, rfl, rfl, hn, he.1.symm⟩⟩

/-- Case analysis of a successful `clone`: either nothing was done and the
result is `false` (empty handle or count exactly 1), or the handle held a
value and a count `n ≠ 1`, a deep copy was allocated at the fresh value
address, the old counter was decremented, and a fresh counter cell was
allocated holding 1. -/
theorem clone_spec (h : Heap T) (p : Ptr) (h' : Heap T) (r : Ptr) (b : Bool)
    (he : clone h p = some (h', r, b)) :
    (b = false ∧ h' = h ∧ r = p ∧
      (p.ptr_ = none ∨
        ∃ a c, p.ptr_ = some a ∧ p.ref_ = some c ∧ h.readRef c = some 1)) ∨
    (b = true ∧
      ∃ a c n v, p.ptr_ = some a ∧ p.ref_ = some c ∧
        h.readRef c = some n ∧ n ≠ 1 ∧ h.readVal a = some v ∧
        h' = (((h.allocVal v).1.writeRef c (n - 1)).allocRef 1).1 ∧
        r = ⟨some h.nextV, some h.nextC⟩) := by
  cases hp : p.ptr_ with
  | none =>
    simp only [clone, hp, Option.some.injEq, Prod.mk.injEq] at he
    exact Or.inl ⟨he.2.2.symm, he.1.symm, he.2.1.symm, Or.inl rfl⟩
  | some a =>
    cases hr : p.ref_ with
    | none => simp [clone, hp, hr] at he
    | some c =>
      cases hn : h.readRef c with
      | none => simp [clone, hp, hr, hn] at he
      | some n =>
        by_cases h1 : n = 1
        · subst h1
          simp only [clone, hp, hr, hn, if_true, eq_self_iff_true,
            Option.some.injEq, Prod.mk.injEq] at he
          exact Or.inl ⟨he.2.2.symm, he.1.symm, he.2.1.symm,
            Or.inr ⟨a, c, rfl, rfl, hn⟩⟩
        · cases hv : h.readVal a with
          | none => simp [clone, hp, hr, hn, h1, hv] at he
          | some v =>
            simp only [clone, hp, hr, hn, if_neg h1, hv, Option.some.injEq,
              Prod.mk.injEq] at he
            refine Or.inr ⟨he.2.2.symm, a, c, n, v, rfl, rfl, hn, h1, hv,
              he.1.symm, ?_⟩
            rw [← he.2.1]
            simp

/-- Copy assignment between distinct objects is `release` followed by the
copy-constructor body. -/
theorem copyAssign_eq_bind (h : Heap T) (tgt src : Ptr) :
    copyAssign h tgt src false =
      (release h tgt).bind (fun z => mkCopy z.1 src) := by
  cases hrel : release h tgt with
  | none => simp [copyAssign, hrel]
  | some z =>
    obtain ⟨h1, p1⟩ := z
    simp only [copyAssign, hrel, Option.bind_some, mkCopy]
    rfl

theorem nShare_eq_zero (hs : Multiset Ptr) (c : Nat)
    (h : ∀ q ∈ hs, ¬q.ref_ = some c) : nShare hs c = 0 := by
  unfold nShare
  rw [Multiset.card_eq_zero]
  exact Multiset.filter_eq_nil.mpr h

/-- `release` run by a handle that leaves the live set preserves the
alias-group invariant of the remaining handles. -/
theorem inv_release (H : Heap T) (p : Ptr) (rest : Multiset Ptr)
    (hInv : Inv H (p ::ₘ rest)) (h' : Heap T) (p' : Ptr)
    (he : release H p = some (h', p')) : Inv h' rest := by
  obtain ⟨hWF, hLt, hU, hC⟩ := hInv
  obtain ⟨-, hcases⟩ := release_spec H p h' p' he
  rcases hcases with ⟨hrn, rfl⟩ | ⟨c0, n, hrc, hread, hbr⟩
  · refine ⟨hWF, ?_, ?_, ?_⟩
    · exact fun q hq c hc => hLt q (Multiset.mem_cons_of_mem hq) c hc
    · exact fun q hq x hx c hqc hxc =>
        hU q (Multiset.mem_cons_of_mem hq) x (Multiset.mem_cons_of_mem hx) c
          hqc hxc
    · intro q hq c a hc ha
      have h0 := hC q (Multiset.mem_cons_of_mem hq) c a hc ha
      have hne : ¬p.ref_ = some c := by simp [hrn]
      rw [nShare_cons, if_neg hne] at h0
      simpa using h0
  · have hc0lt : c0 < H.nextC := hLt p (Multiset.mem_cons_self p rest) c0 hrc
    rcases hbr with ⟨hnz, rfl⟩ | ⟨hz, rfl⟩
    · refine ⟨?_, ?_, ?_, ?_⟩
      · intro a ha
        rw [Heap.nextC_writeRef] at ha
        rw [Heap.readRef_writeRef_ne _ _ _ _ (by omega)]
        exact hWF a ha
      · intro q hq c hc
        rw [Heap.nextC_writeRef]
        exact hLt q (Multiset.mem_cons_of_mem hq) c hc
      · exact fun q hq x hx c hqc hxc =>
          hU q (Multiset.mem_cons_of_mem hq) x (Multiset.mem_cons_of_mem hx) c
            hqc hxc
      · intro q hq c a hc ha
        by_cases hdc : c = c0
        · subst hdc
          have hqp : q.ptr_ = p.ptr_ :=
            hU q (Multiset.mem_cons_of_mem hq) p (Multiset.mem_cons_self p rest)
              c hc hrc
          have hpp : p.ptr_ = some a := by rw [← hqp, ha]
          have h0 := hC p (Multiset.mem_cons_self p rest) c a hrc hpp
          have hn' : n = ((nShare (p ::ₘ rest) c : ℕ) : ℤ) :=
            Option.some_inj.mp (hread.symm.trans h0)
          have hsplit : nShare (p ::ₘ rest) c = 1 + nShare rest c := by
            rw [nShare_cons, if_pos hrc]
          rw [Heap.readRef_writeRef_self]
          have hgoal : n - 1 = ((nShare rest c : ℕ) : ℤ) := by
            rw [hn', hsplit]
            push_cast
            ring
          rw [hgoal]
        · rw [Heap.readRef_writeRef_ne _ _ _ _ hdc]
          have h0 := hC q (Multiset.mem_cons_of_mem hq) c a hc ha
          have hne : ¬p.ref_ = some c := by
            rw [hrc]
            intro hcontra
            exact hdc (Option.some_inj.mp hcontra).symm
          rw [nShare_cons, if_neg hne] at h0
          simpa using h0
    · refine ⟨?_, ?_, ?_, ?_⟩
      · intro a ha
        simp only [Heap.nextC_freeRef, Heap.nextC_freeVal,
          Heap.nextC_writeRef] at ha
        by_cases hac : a = c0
        · subst hac
          exact Heap.readRef_freeRef_self _ _
        · rw [Heap.readRef_freeRef_ne _ _ _ hac, Heap.readRef_freeVal,
            Heap.readRef_writeRef_ne _ _ _ _ hac]
          exact hWF a ha
      · intro q hq c hc
        simp only [Heap.nextC_freeRef, Heap.nextC_freeVal, Heap.nextC_writeRef]
        exact hLt q (Multiset.mem_cons_of_mem hq) c hc
      · exact fun q hq x hx c hqc hxc =>
          hU q (Multiset.mem_cons_of_mem hq) x (Multiset.mem_cons_of_mem hx) c
            hqc hxc
      · intro q hq c a hc ha
        by_cases hdc : c = c0
        · exfalso
          subst hdc
          have hqp : q.ptr_ = p.ptr_ :=
            hU q (Multiset.mem_cons_of_mem hq) p (Multiset.mem_cons_self p rest)
              c hc hrc
          have hpp : p.ptr_ = some a := by rw [← hqp, ha]
          have h0 := hC p (Multiset.mem_cons_self p rest) c a hrc hpp
          have hn' : n = ((nShare (p ::ₘ rest) c : ℕ) : ℤ) :=
            Option.some_inj.mp (hread.symm.trans h0)
          have h1 : 1 ≤ nShare rest c := nShare_pos rest q hq c hc
          have hsplit : nShare (p ::ₘ rest) c = 1 + nShare rest c := by
            rw [nShare_cons, if_pos hrc]
          omega
        · rw [Heap.readRef_freeRef_ne _ _ _ hdc, Heap.readRef_freeVal,
            Heap.readRef_writeRef_ne _ _ _ _ hdc]
          have h0 := hC q (Multiset.mem_cons_of_mem hq) c a hc ha
          have hne : ¬p.ref_ = some c := by
            rw [hrc]
            intro hcontra
            exact hdc (Option.some_inj.mp hcontra).symm
          rw [nShare_cons, if_neg hne] at h0
          simpa using h0

/-- The copy-constructor body run from a live handle preserves the
alias-group invariant when the new object joins the live set. -/
theorem inv_mkCopy (H : Heap T) (M : Multiset Ptr) (q : Ptr) (hq : q ∈ M)
    (hInv : Inv H M) (h' : Heap T) (r : Ptr)
    (he : mkCopy H q = some (h', r)) : Inv h' (r ::ₘ M) := by
  obtain ⟨hWF, hLt, hU, hC⟩ := hInv
  obtain ⟨hr, hcases⟩ := mkCopy_spec H q h' r he
  subst hr
  rw [show (⟨q.ptr_, q.ref_⟩ : Ptr) = q from rfl]
  have hsub : ∀ z ∈ q ::ₘ M, z ∈ M := by
    intro z hz
    rcases Multiset.mem_cons.mp hz with hze | hz
    · exact hze ▸ hq
    · exact hz
  rcases hcases with ⟨hqp, rfl⟩ | ⟨a0, c0, n, hqp, hqr, hread, rfl⟩
  · refine ⟨hWF, ?_, ?_, ?_⟩
    · exact fun x hx c hc => hLt x (hsub x hx) c hc
    · exact fun x hx y hy c hxc hyc =>
        hU x (hsub x hx) y (hsub y hy) c hxc hyc
    · intro x hx c a hc ha
      have h0 := hC x (hsub x hx) c a hc ha
      have hne : ¬q.ref_ = some c := by
        intro hqc
        have hxq := hU x (hsub x hx) q hq c hc hqc
        rw [hqp] at hxq
        rw [hxq] at ha
        cases ha
      rw [nShare_cons, if_neg hne]
      simpa using h0
  · have hc0lt : c0 < H.nextC := hLt q hq c0 hqr
    refine ⟨?_, ?_, ?_, ?_⟩
    · intro a ha
      rw [Heap.nextC_writeRef] at ha
      rw [Heap.readRef_writeRef_ne _ _ _ _ (by omega)]
      exact hWF a ha
    · intro x hx c hc
      rw [Heap.nextC_writeRef]
      exact hLt x (hsub x hx) c hc
    · exact fun x hx y hy c hxc hyc =>
        hU x (hsub x hx) y (hsub y hy) c hxc hyc
    · intro x hx c a hc ha
      by_cases hdc : c = c0
      · subst hdc
        have hn' : n = ((nShare M c : ℕ) : ℤ) :=
          Option.some_inj.mp (hread.symm.trans (hC q hq c a0 hqr hqp))
        rw [Heap.readRef_writeRef_self, nShare_cons, if_pos hqr]
        have hgoal : n + 1 = (((1 + nShare M c : ℕ)) : ℤ) := by
          rw [hn']
          push_cast
          ring
        rw [hgoal]
      · rw [Heap.readRef_writeRef_ne _ _ _ _ hdc]
        have h0 := hC x (hsub x hx) c a hc ha
        have hne : ¬q.ref_ = some c := by
          rw [hqr]
          intro hcontra
          exact hdc (Option.some_inj.mp hcontra).symm
        rw [nShare_cons, if_neg hne]
        simpa using h0

/-- Adding a fully cleared handle (both members null, as left behind by a
move) preserves the alias-group invariant. -/
theorem inv_nullHandle (H : Heap T) (M : Multiset Ptr) (hInv : Inv H M) :
    Inv H (Ptr.mk none none ::ₘ M) := by
  obtain ⟨hWF, hLt, hU, hC⟩ := hInv
  refine ⟨hWF, ?_, ?_, ?_⟩
  · intro x hx c hc
    rcases Multiset.mem_cons.mp hx with rfl | hx
    · simp at hc
    · exact hLt x hx c hc
  · intro x hx y hy c hxc hyc
    rcases Multiset.mem_cons.mp hx with rfl | hx
    · simp at hxc
    · rcases Multiset.mem_cons.mp hy with rfl | hy
      · simp at hyc
      · exact hU x hx y hy c hxc hyc
  · intro x hx c a hc ha
    rcases Multiset.mem_cons.mp hx with rfl | hx
    · simp at hc
    · have h0 := hC x hx c a hc ha
      rw [nShare_cons, if_neg (by simp)]
      simpa using h0

/-- Construction of a brand-new handle over a freshly allocated counter cell
preserves the alias-group invariant; the stored count must be 1 when the
adopted raw pointer is non-null (which is what both raw-pointer constructors
do). -/
theorem inv_allocHandle (H : Heap T) (M : Multiset Ptr) (hInv : Inv H M)
    (raw : Option Nat) (k : Int) (hk : raw.isSome = true → k = 1) :
    Inv (H.allocRef k).1 (Ptr.mk raw (some (H.allocRef k).2) ::ₘ M) := by
  obtain ⟨hWF, hLt, hU, hC⟩ := hInv
  have hfresh : ∀ x ∈ M, ¬x.ref_ = some H.nextC := fun x hx hc =>
    absurd (hLt x hx _ hc) (lt_irrefl _)
  refine ⟨?_, ?_, ?_, ?_⟩
  · intro a ha
    rw [Heap.nextC_allocRef] at ha
    rw [Heap.readRef_allocRef_ne _ _ _ (by omega)]
    exact hWF a (by omega)
  · intro x hx c hc
    rw [Heap.nextC_allocRef]
    rcases Multiset.mem_cons.mp hx with rfl | hx
    · have hcn : H.nextC = c := by simpa using hc
      omega
    · have := hLt x hx c hc
      omega
  · intro x hx y hy c hxc hyc
    rcases Multiset.mem_cons.mp hx with rfl | hx <;>
      rcases Multiset.mem_cons.mp hy with rfl | hy
    · rfl
    · exfalso
      have hcn : H.nextC = c := by simpa using hxc
      exact hfresh y hy (hcn ▸ hyc)
    · exfalso
      have hcn : H.nextC = c := by simpa using hyc
      exact hfresh x hx (hcn ▸ hxc)
    · exact hU x hx y hy c hxc hyc
  · intro x hx c a hc ha
    rcases Multiset.mem_cons.mp hx with rfl | hx
    · have hk1 : k = 1 := by
        apply hk
        have : raw = some a := ha
        rw [this]
        rfl
      have hcn : H.nextC = c := by simpa using hc
      subst hcn
      rw [Heap.readRef_allocRef_self]
      have hz : nShare M H.nextC = 0 := nShare_eq_zero M H.nextC hfresh
      rw [nShare_cons, if_pos hc, hz, hk1]
      rfl
    · have hcne : c ≠ H.nextC := fun hh => hfresh x hx (hh ▸ hc)
      rw [Heap.readRef_allocRef_ne _ _ _ hcne]
      have h0 := hC x hx c a hc ha
      have hne : ¬(Ptr.mk raw (some (H.allocRef k).2)).ref_ = some c := by
        simp only [Heap.snd_allocRef, Option.some.injEq]
        exact fun hh => hcne hh.symm
      rw [nShare_cons, if_neg hne]
      simpa using h0

/-- Description of the counter store after the heap effects of a successful
`clone` true branch: the fresh cell (at the old `nextC`) holds 1, the old
group's cell was decremented, everything else is untouched. -/
theorem clone_readRef (H : Heap T) (v : T) (c0 : Nat) (n : Int) :
    ∀ d, (((H.allocVal v).1.writeRef c0 (n - 1)).allocRef 1).1.readRef d =
      if d = H.nextC then some 1
      else if d = c0 then some (n - 1) else H.readRef d := by
  intro d
  by_cases h1 : d = H.nextC
  · subst h1
    rw [if_pos rfl]
    have hx : ((H.allocVal v).1.writeRef c0 (n - 1)).nextC = H.nextC := by
      simp
    rw [← hx]
    exact Heap.readRef_allocRef_self _ _
  · rw [if_neg h1, Heap.readRef_allocRef_ne _ _ _ (by simpa using h1)]
    by_cases h2c : d = c0
    · subst h2c
      rw [if_pos rfl]
      exact Heap.readRef_writeRef_self _ _ _
    · rw [if_neg h2c, Heap.readRef_writeRef_ne _ _ _ _ h2c,
        Heap.readRef_allocVal]

/-- `clone` run by a live handle preserves the alias-group invariant. -/
theorem inv_clone (H : Heap T) (p : Ptr) (rest : Multiset Ptr)
    (hInv : Inv H (p ::ₘ rest)) (h' : Heap T) (r : Ptr) (b : Bool)
    (he : clone H p = some (h', r, b)) : Inv h' (r ::ₘ rest) := by
  rcases clone_spec H p h' r b he with ⟨-, rfl, rfl, -⟩ |
    ⟨-, a, c0, n, v, hp, hr, hread, hn1, hv, rfl, rfl⟩
  · exact hInv
  · obtain ⟨hWF, hLt, hU, hC⟩ := hInv
    have hc0lt : c0 < H.nextC := hLt p (Multiset.mem_cons_self p rest) c0 hr
    have hfresh : ∀ x ∈ rest, ¬x.ref_ = some H.nextC := fun x hx hc =>
      absurd (hLt x (Multiset.mem_cons_of_mem hx) _ hc) (lt_irrefl _)
    have h0 := hC p (Multiset.mem_cons_self p rest) c0 a hr hp
    have hn' : n = ((nShare (p ::ₘ rest) c0 : ℕ) : ℤ) :=
      Option.some_inj.mp (hread.symm.trans h0)
    have hsplit : nShare (p ::ₘ rest) c0 = 1 + nShare rest c0 := by
      rw [nShare_cons, if_pos hr]
    have hnext : (((H.allocVal v).1.writeRef c0 (n - 1)).allocRef 1).1.nextC =
        H.nextC + 1 := by simp
    have hrd := clone_readRef H v c0 n
    refine ⟨?_, ?_, ?_, ?_⟩
    · intro x hx
      rw [hnext] at hx
      rw [hrd]
      rw [if_neg (by omega), if_neg (by omega)]
      exact hWF x (by omega)
    · intro x hx c hc
      rw [hnext]
      rcases Multiset.mem_cons.mp hx with rfl | hx
      · have hcn : H.nextC = c := by simpa using hc
        omega
      · have := hLt x (Multiset.mem_cons_of_mem hx) c hc
        omega
    · intro x hx y hy c hxc hyc
      rcases Multiset.mem_cons.mp hx with rfl | hx <;>
        rcases Multiset.mem_cons.mp hy with rfl | hy
      · rfl
      · exfalso
        have hcn : H.nextC = c := by simpa using hxc
        exact hfresh y hy (hcn ▸ hyc)
      · exfalso
        have hcn : H.nextC = c := by simpa using hyc
        exact hfresh x hx (hcn ▸ hxc)
      · exact hU x (Multiset.mem_cons_of_mem hx) y (Multiset.mem_cons_of_mem hy)
          c hxc hyc
    · intro x hx c a2 hc ha2
      rcases Multiset.mem_cons.mp hx with rfl | hx
      · have hcn : H.nextC = c := by simpa using hc
        subst hcn
        rw [hrd, if_pos rfl]
        have hz : nShare rest H.nextC = 0 := nShare_eq_zero rest H.nextC hfresh
        rw [nShare_cons, if_pos hc, hz]
        rfl
      · have hdn : c ≠ H.nextC := fun hh => hfresh x hx (hh ▸ hc)
        rw [hrd, if_neg hdn]
        have hrne : ¬(⟨some H.nextV, some H.nextC⟩ : Ptr).ref_ = some c := by
          simp only [Option.some.injEq]
          exact fun hh => hdn hh.symm
        by_cases hdc : c = c0
        · subst hdc
          rw [if_pos rfl, nShare_cons, if_neg hrne]
          have hgoal : n - 1 = ((nShare rest c : ℕ) : ℤ) := by
            rw [hn', hsplit]
            push_cast
            ring
          rw [hgoal]
          simp
        · rw [if_neg hdc]
          have h2 := hC x (Multiset.mem_cons_of_mem hx) c a2 hc ha2
          have hne : ¬p.ref_ = some c := by
            rw [hr]
            intro hcontra
            exact hdc (Option.some_inj.mp hcontra).symm
          rw [nShare_cons, if_neg hne] at h2
          rw [nShare_cons, if_neg hrne]
          simpa using h2

/-- Move assignment (PC variant) between distinct objects is `release`
followed by taking the source's members and clearing the source. -/
theorem moveAssign_eq_map (h : Heap T) (tgt src : Ptr) :
    moveAssign h tgt src false =
      (release h tgt).map
        (fun z => (z.1, (⟨src.ptr_, src.ref_⟩ : Ptr), (⟨none, none⟩ : Ptr))) := by
  cases hrel : release h tgt with
  | none => simp [moveAssign, hrel]
  | some z =>
    obtain ⟨h1, p1⟩ := z
    simp [moveAssign, hrel]

/-- Every public operation preserves the alias-group invariant. -/
theorem inv_step {b : Bool} {s s' : State T} (hInv : Inv s.heap s.handles)
    (hs : Step b s s') : Inv s'.heap s'.handles := by
  cases hs with
  | defaultCtor h' p he =>
    have hh := congrArg Prod.fst he
    have hp := congrArg Prod.snd he
    subst hh
    subst hp
    exact inv_allocHandle s.heap s.handles hInv none 0 (by simp)
  | rawCtor a h' p he =>
    have hh := congrArg Prod.fst he
    have hp := congrArg Prod.snd he
    subst hh
    subst hp
    exact inv_allocHandle s.heap s.handles hInv (some a) 1 (fun _ => rfl)
  | rawCtorNull h' p hb he =>
    have hh := congrArg Prod.fst he
    have hp := congrArg Prod.snd he
    subst hh
    subst hp
    exact inv_allocHandle s.heap s.handles hInv none 1 (fun _ => rfl)
  | copyCtor q h' p hq he =>
    exact inv_mkCopy s.heap s.handles q hq hInv h' p he
  | moveCtor q rest hm h' p q' he =>
    have h1 := congrArg Prod.fst he
    have h2 := congrArg (fun z => z.2.1) he
    have h3 := congrArg (fun z => z.2.2) he
    subst h1
    subst h2
    subst h3
    have hInv' : Inv s.heap (q ::ₘ rest) := by
      rw [← hm]
      exact hInv
    have h4 := inv_nullHandle s.heap (q ::ₘ rest) hInv'
    show Inv s.heap (q ::ₘ Ptr.mk none none ::ₘ rest)
    rw [Multiset.cons_swap]
    exact h4
  | copyAssignStep tgt src rest hm h' r he =>
    rw [copyAssign_eq_bind] at he
    obtain ⟨z, hrel, hcopy⟩ := Option.bind_eq_some.mp he
    obtain ⟨h1, p1⟩ := z
    have hInv' : Inv s.heap (tgt ::ₘ src ::ₘ rest) := by
      rw [← hm]
      exact hInv
    have hmid := inv_release s.heap tgt (src ::ₘ rest) hInv' h1 p1 hrel
    exact inv_mkCopy h1 (src ::ₘ rest) src (Multiset.mem_cons_self src rest)
      hmid h' r hcopy
  | moveAssignStep tgt src rest hm h' r r' he =>
    rw [moveAssign_eq_map] at he
    obtain ⟨z, hrel, hmap⟩ := Option.map_eq_some'.mp he
    obtain ⟨h1, p1⟩ := z
    have hh := congrArg Prod.fst hmap
    have h2 := congrArg (fun w => w.2.1) hmap
    have h3 := congrArg (fun w => w.2.2) hmap
    subst hh
    subst h2
    subst h3
    have hInv' : Inv s.heap (tgt ::ₘ src ::ₘ rest) := by
      rw [← hm]
      exact hInv
    have hmid := inv_release s.heap tgt (src ::ₘ rest) hInv' h1 p1 hrel
    have h4 := inv_nullHandle h1 (src ::ₘ rest) hmid
    show Inv h1 (src ::ₘ Ptr.mk none none ::ₘ rest)
    rw [Multiset.cons_swap]
    exact h4
  | cloneStep p rest hm h' r b2 he =>
    have hInv' : Inv s.heap (p ::ₘ rest) := by
      rw [← hm]
      exact hInv
    exact inv_clone s.heap p rest hInv' h' r b2 he
  | destructStep p rest hm h' p' he =>
    have hInv' : Inv s.heap (p ::ₘ rest) := by
      rw [← hm]
      exact hInv
    exact inv_release s.heap p rest hInv' h' p' he

/-- Every reachable state satisfies the alias-group invariant. -/
theorem reach_inv {b : Bool} {s : State T} (h : Reach b s) :
    Inv s.heap s.handles := by
  induction h with
  | init =>
    refine ⟨fun a _ => rfl, ?_, ?_, ?_⟩ <;> intro p hp <;>
      exact absurd hp (Multiset.not_mem_zero p)
  | step hr hs ih => exact inv_step ih hs

theorem ecnp_release (H : Heap T) (p : Ptr) (rest : Multiset Ptr)
    (hInv : Inv H (p ::ₘ rest)) (hE : EmptyCellNonPos H (p ::ₘ rest))
    (h' : Heap T) (p' : Ptr) (he : release H p = some (h', p')) :
    EmptyCellNonPos h' rest := by
  obtain ⟨hWF, hLt, hU, hC⟩ := hInv
  obtain ⟨-, hcases⟩ := release_spec H p h' p' he
  intro x hx c hc hxp
  rcases hcases with ⟨hrn, rfl⟩ | ⟨c0, n, hrc, hread, hbr⟩
  · exact hE x (Multiset.mem_cons_of_mem hx) c hc hxp
  · rcases hbr with ⟨hnz, rfl⟩ | ⟨hz, rfl⟩
    · by_cases hdc : c = c0
      · subst hdc
        have hxq := hU x (Multiset.mem_cons_of_mem hx) p
          (Multiset.mem_cons_self p rest) c hc hrc
        have hpp : p.ptr_ = none := by rw [← hxq, hxp]
        obtain ⟨m, hm, hm0⟩ := hE p (Multiset.mem_cons_self p rest) c hrc hpp
        have hmn : m = n := Option.some_inj.mp (hm.symm.trans hread)
        refine ⟨n - 1, ?_, by omega⟩
        rw [Heap.readRef_writeRef_self]
      · rw [Heap.readRef_writeRef_ne _ _ _ _ hdc]
        exact hE x (Multiset.mem_cons_of_mem hx) c hc hxp
    · by_cases hdc : c = c0
      · exfalso
        subst hdc
        have hxq := hU x (Multiset.mem_cons_of_mem hx) p
          (Multiset.mem_cons_self p rest) c hc hrc
        have hpp : p.ptr_ = none := by rw [← hxq, hxp]
        obtain ⟨m, hm, hm0⟩ := hE p (Multiset.mem_cons_self p rest) c hrc hpp
        have hmn : m = n := Option.some_inj.mp (hm.symm.trans hread)
        omega
      · rw [Heap.readRef_freeRef_ne _ _ _ hdc, Heap.readRef_freeVal,
          Heap.readRef_writeRef_ne _ _ _ _ hdc]
        exact hE x (Multiset.mem_cons_of_mem hx) c hc hxp

theorem ecnp_mkCopy (H : Heap T) (M : Multiset Ptr) (q : Ptr) (hq : q ∈ M)
    (hInv : Inv H M) (hE : EmptyCellNonPos H M) (h' : Heap T) (r : Ptr)
    (he : mkCopy H q = some (h', r)) : EmptyCellNonPos h' (r ::ₘ M) := by
  obtain ⟨hWF, hLt, hU, hC⟩ := hInv
  obtain ⟨hr, hcases⟩ := mkCopy_spec H q h' r he
  subst hr
  rw [show (⟨q.ptr_, q.ref_⟩ : Ptr) = q from rfl]
  have hsub : ∀ z ∈ q ::ₘ M, z ∈ M := by
    intro z hz
    rcases Multiset.mem_cons.mp hz with hze | hz
    · exact hze ▸ hq
    · exact hz
  intro x hx c hc hxp
  rcases hcases with ⟨hqp, rfl⟩ | ⟨a0, c0, n, hqp, hqr, hread, rfl⟩
  · exact hE x (hsub x hx) c hc hxp
  · by_cases hdc : c = c0
    · exfalso
      subst hdc
      have hxq := hU x (hsub x hx) q hq c hc hqr
      rw [hxp, hqp] at hxq
      cases hxq
    · rw [Heap.readRef_writeRef_ne _ _ _ _ hdc]
      exact hE x (hsub x hx) c hc hxp

theorem ecnp_nullHandle (H : Heap T) (M : Multiset Ptr)
    (hE : EmptyCellNonPos H M) :
    EmptyCellNonPos H (Ptr.mk none none ::ₘ M) := by
  intro x hx c hc hxp
  rcases Multiset.mem_cons.mp hx with hxe | hx
  · subst hxe
    simp at hc
  · exact hE x hx c hc hxp

theorem ecnp_allocHandle (H : Heap T) (M : Multiset Ptr) (hInv : Inv H M)
    (hE : EmptyCellNonPos H M) (raw : Option Nat) (k : Int)
    (hk : raw = none → k ≤ 0) :
    EmptyCellNonPos (H.allocRef k).1
      (Ptr.mk raw (some (H.allocRef k).2) ::ₘ M) := by
  obtain ⟨hWF, hLt, hU, hC⟩ := hInv
  intro x hx c hc hxp
  rcases Multiset.mem_cons.mp hx with hxe | hx
  · subst hxe
    have hraw : raw = none := hxp
    have hcn : H.nextC = c := by simpa using hc
    subst hcn
    exact ⟨k, Heap.readRef_allocRef_self H k, hk hraw⟩
  · have hcne : c ≠ H.nextC := fun hh =>
      absurd (hLt x hx _ (hh ▸ hc)) (lt_irrefl _)
    rw [Heap.readRef_allocRef_ne _ _ _ hcne]
    exact hE x hx c hc hxp

theorem ecnp_clone (H : Heap T) (p : Ptr) (rest : Multiset Ptr)
    (hInv : Inv H (p ::ₘ rest)) (hE : EmptyCellNonPos H (p ::ₘ rest))
    (h' : Heap T) (r : Ptr) (b : Bool)
    (he : clone H p = some (h', r, b)) : EmptyCellNonPos h' (r ::ₘ rest) := by
  rcases clone_spec H p h' r b he with ⟨-, rfl, rfl, -⟩ |
    ⟨-, a, c0, n, v, hp, hr, hread, hn1, hv, rfl, rfl⟩
  · exact hE
  · obtain ⟨hWF, hLt, hU, hC⟩ := hInv
    intro x hx c hc hxp
    rcases Multiset.mem_cons.mp hx with hxe | hx
    · subst hxe
      simp at hxp
    · have hdn : c ≠ H.nextC := fun hh =>
        absurd (hLt x (Multiset.mem_cons_of_mem hx) _ (hh ▸ hc)) (lt_irrefl _)
      rw [clone_readRef, if_neg hdn]
      by_cases hdc : c = c0
      · exfalso
        subst hdc
        have hxq := hU x (Multiset.mem_cons_of_mem hx) p
          (Multiset.mem_cons_self p rest) c hc hr
        rw [hxp, hp] at hxq
        cases hxq
      · rw [if_neg hdc]
        exact hE x (Multiset.mem_cons_of_mem hx) c hc hxp

/-- Every public operation with a non-null raw-pointer argument also
preserves the non-positive-counter invariant of empty alias groups. -/
theorem ecnp_step {s s' : State T} (hInv : Inv s.heap s.handles)
    (hE : EmptyCellNonPos s.heap s.handles) (hs : Step false s s') :
    EmptyCellNonPos s'.heap s'.handles := by
  cases hs with
  | defaultCtor h' p he =>
    have hh := congrArg Prod.fst he
    have hp := congrArg Prod.snd he
    subst hh
    subst hp
    exact ecnp_allocHandle s.heap s.handles hInv hE none 0 (fun _ => le_refl 0)
  | rawCtor a h' p he =>
    have hh := congrArg Prod.fst he
    have hp := congrArg Prod.snd he
    subst hh
    subst hp
    exact ecnp_allocHandle s.heap s.handles hInv hE (some a) 1 (by simp)
  | rawCtorNull h' p hb he =>
    exact absurd hb (by simp)
  | copyCtor q h' p hq he =>
    exact ecnp_mkCopy s.heap s.handles q hq hInv hE h' p he
  | moveCtor q rest hm h' p q' he =>
    have h1 := congrArg Prod.fst he
    have h2 := congrArg (fun z => z.2.1) he
    have h3 := congrArg (fun z => z.2.2) he
    subst h1
    subst h2
    subst h3
    have hE' : EmptyCellNonPos s.heap (q ::ₘ rest) := by
      rw [← hm]
      exact hE
    have h4 := ecnp_nullHandle s.heap (q ::ₘ rest) hE'
    show EmptyCellNonPos s.heap (q ::ₘ Ptr.mk none none ::ₘ rest)
    rw [Multiset.cons_swap]
    exact h4
  | copyAssignStep tgt src rest hm h' r he =>
    rw [copyAssign_eq_bind] at he
    obtain ⟨z, hrel, hcopy⟩ := Option.bind_eq_some.mp he
    obtain ⟨h1, p1⟩ := z
    have hInv' : Inv s.heap (tgt ::ₘ src ::ₘ rest) := by
      rw [← hm]
      exact hInv
    have hE' : EmptyCellNonPos s.heap (tgt ::ₘ src ::ₘ rest) := by
      rw [← hm]
      exact hE
    have hmidI := inv_release s.heap tgt (src ::ₘ rest) hInv' h1 p1 hrel
    have hmidE := ecnp_release s.heap tgt (src ::ₘ rest) hInv' hE' h1 p1 hrel
    exact ecnp_mkCopy h1 (src ::ₘ rest) src (Multiset.mem_cons_self src rest)
      hmidI hmidE h' r hcopy
  | moveAssignStep tgt src rest hm h' r r' he =>
    rw [moveAssign_eq_map] at he
    obtain ⟨z, hrel, hmap⟩ := Option.map_eq_some'.mp he
    obtain ⟨h1, p1⟩ := z
    have hh := congrArg Prod.fst hmap
    have h2 := congrArg (fun w => w.2.1) hmap
    have h3 := congrArg (fun w => w.2.2) hmap
    subst hh
    subst h2
    subst h3
    have hInv' : Inv s.heap (tgt ::ₘ src ::ₘ rest) := by
      rw [← hm]
      exact hInv
    have hE' : EmptyCellNonPos s.heap (tgt ::ₘ src ::ₘ rest) := by
      rw [← hm]
      exact hE
    have hmidE := ecnp_release s.heap tgt (src ::ₘ rest) hInv' hE' h1 p1 hrel
    have h4 := ecnp_nullHandle h1 (src ::ₘ rest) hmidE
    show EmptyCellNonPos h1 (src ::ₘ Ptr.mk none none ::ₘ rest)
    rw [Multiset.cons_swap]
    exact h4
  | cloneStep p rest hm h' r b2 he =>
    have hInv' : Inv s.heap (p ::ₘ rest) := by
      rw [← hm]
      exact hInv
    have hE' : EmptyCellNonPos s.heap (p ::ₘ rest) := by
      rw [← hm]
      exact hE
    exact ecnp_clone s.heap p rest hInv' hE' h' r b2 he
  | destructStep p rest hm h' p' he =>
    have hInv' : Inv s.heap (p ::ₘ rest) := by
      rw [← hm]
      exact hInv
    have hE' : EmptyCellNonPos s.heap (p ::ₘ rest) := by
      rw [← hm]
      exact hE
    exact ecnp_release s.heap p rest hInv' hE' h' p' he

/-- When the raw-pointer constructors are never handed a null pointer, every
reachable state also satisfies `EmptyCellNonPos`. -/
theorem reach_ecnp {s : State T} (h : Reach false s) :
    EmptyCellNonPos s.heap s.handles := by
  induction h with
  | init =>
    intro p hp
    exact absurd hp (Multiset.not_mem_zero p)
  | step hr hs ih => exact ecnp_step (reach_inv hr) ih hs

theorem release_eq_of_none (h : Heap T) (p : Ptr) (hp : p.ref_ = none) :
    release h p = some (h, ⟨none, none⟩) := by
  simp [release, hp]

/-- `release` succeeds whenever the count reference is null or points at a
live cell, clears the handle, and leaves every other counter cell alone. -/
theorem release_total (h : Heap T) (p : Ptr)
    (hlive : p.ref_ = none ∨ ∃ c n, p.ref_ = some c ∧ h.readRef c = some n) :
    ∃ h', release h p = some (h', ⟨none, none⟩) ∧
      ∀ d, (∀ c, p.ref_ = some c → d ≠ c) → h'.readRef d = h.readRef d := by
  rcases hlive with hp | ⟨c, n, hp, hn⟩
  · exact ⟨h, release_eq_of_none h p hp, fun d _ => rfl⟩
  · by_cases hz : n - 1 = 0
    · refine ⟨((h.writeRef c (n - 1)).freeVal p.ptr_).freeRef c, ?_, ?_⟩
      · simp [release, hp, hn, hz]
      · intro d hd
        have hdc : d ≠ c := hd c hp
        rw [Heap.readRef_freeRef_ne _ _ _ hdc, Heap.readRef_freeVal,
          Heap.readRef_writeRef_ne _ _ _ _ hdc]
    · refine ⟨h.writeRef c (n - 1), ?_, ?_⟩
      · simp [release, hp, hn, hz]
      · intro d hd
        exact Heap.readRef_writeRef_ne _ _ _ _ (hd c hp)

theorem mkCopy_eq_empty (h : Heap T) (rhs : Ptr) (hp : rhs.ptr_ = none) :
    mkCopy h rhs = some (h, ⟨rhs.ptr_, rhs.ref_⟩) := by
  simp [mkCopy, hp]

theorem mkCopy_eq_live (h : Heap T) (rhs : Ptr) (a c : Nat) (n : Int)
    (hp : rhs.ptr_ = some a) (hr : rhs.ref_ = some c)
    (hn : h.readRef c = some n) :
    mkCopy h rhs = some (h.writeRef c (n + 1), ⟨rhs.ptr_, rhs.ref_⟩) := by
  simp [mkCopy, hp, hr, hn]

/-- C2: `clone()` on an empty handle, or on a handle whose shared count is
exactly 1, returns `false` and changes nothing; on a handle with shared
count at least 2 it returns `true`, after which the cloning handle holds a
fresh deep copy (equal content, distinct identity) with its own count of 1,
the alias group it left is decremented by exactly 1, and no other value
cell is touched. -/
theorem C2_clone_copy_on_write (h : Heap T) (p : Ptr) :
    (p.ptr_ = none → clone h p = some (h, p, false)) ∧
    (∀ a c, p.ptr_ = some a → p.ref_ = some c → h.readRef c = some 1 →
      clone h p = some (h, p, false)) ∧
    (∀ a c n v, p.ptr_ = some a → p.ref_ = some c → h.readRef c = some n →
      2 ≤ n → h.readVal a = some v →
      (∀ x, h.nextV ≤ x → h.readVal x = none) →
      (∀ x, h.nextC ≤ x → h.readRef x = none) →
      ∃ h', clone h p = some (h', ⟨some h.nextV, some h.nextC⟩, true) ∧
        h'.readVal h.nextV = some v ∧
        h.nextV ≠ a ∧
        h'.readRef h.nextC = some 1 ∧
        h'.readRef c = some (n - 1) ∧
        (∀ x, x ≠ h.nextV → h'.readVal x = h.readVal x)) := by
  refine ⟨?_, ?_, ?_⟩
  · intro hp
    simp [clone, hp]
  · intro a c hp hr hn
    simp [clone, hp, hr, hn]
  · intro a c n v hp hr hn h2n hv hWFv hWFr
    have hne1 : ¬n = 1 := by omega
    have halt : a < h.nextV := by
      by_contra hcon
      rw [hWFv a (by omega)] at hv
      cases hv
    have hclt : c < h.nextC := by
      by_contra hcon
      rw [hWFr c (by omega)] at hn
      cases hn
    have hcn : ¬c = h.nextC := by omega
    have hva : h.nextV ≠ a := by omega
    refine ⟨(((h.allocVal v).1.writeRef c (n - 1)).allocRef 1).1, ?_, ?_,
      hva, ?_, ?_, ?_⟩
    · simp [clone, hp, hr, hn, hne1, hv]
    · simp
    · rw [clone_readRef, if_pos rfl]
    · rw [clone_readRef, if_neg hcn, if_pos rfl]
    · intro x hx
      rw [Heap.readVal_allocRef, Heap.readVal_writeRef,
        Heap.readVal_allocVal_ne _ _ _ hx]

/-- Witness for C2 at a concrete input: a handle at value address 0 whose
count cell holds 2 clones successfully into fresh cells, and a sole owner
(count 1) refuses. -/
theorem C2_clone_copy_on_write_witness :
    (∃ h', clone exHeapShared ⟨some 0, some 0⟩ = some (h', ⟨some 1, some 1⟩, true) ∧
      h'.readVal 1 = some 42 ∧
      (1 : Nat) ≠ 0 ∧
      h'.readRef 1 = some 1 ∧
      h'.readRef 0 = some (2 - 1) ∧
      (∀ x, x ≠ 1 → h'.readVal x = exHeapShared.readVal x)) ∧
    clone (Heap.mk (fun x => if x = 0 then some (42 : Int) else none)
        (fun x => if x = 0 then some 1 else none) 1 1) ⟨some 0, some 0⟩ =
      some (Heap.mk (fun x => if x = 0 then some (42 : Int) else none)
        (fun x => if x = 0 then some 1 else none) 1 1, ⟨some 0, some 0⟩,
        false) := by
  constructor
  · exact (C2_clone_copy_on_write exHeapShared ⟨some 0, some 0⟩).2.2 0 0 2 42
      rfl rfl rfl (by omega) rfl
      (by
        intro x hx
        have hx1 : 1 ≤ x := hx
        have hx0 : ¬x = 0 := by omega
        show (if x = 0 then some (42 : Int) else none) = none
        rw [if_neg hx0])
      (by
        intro x hx
        have hx1 : 1 ≤ x := hx
        have hx0 : ¬x = 0 := by omega
        show (if x = 0 then some (2 : Int) else none) = none
        rw [if_neg hx0])
  · exact (C2_clone_copy_on_write _ _).2.1 0 0 rfl rfl rfl

/-- C3: dereference (`operator*`) and member access (`operator->`) raise the
null-access error exactly on an empty handle; on a non-empty handle they
return the owned reference/pointer and never fail; the error is the returned
result itself, never a sentinel value. -/
theorem C3_deref_null_access_iff_empty (p : Ptr) :
    (opStar p = Except.error ⟨⟩ ↔ p.ptr_ = none) ∧
    (opArrow p = Except.error ⟨⟩ ↔ p.ptr_ = none) ∧
    (∀ a, p.ptr_ = some a → opStar p = Except.ok a ∧ opArrow p = Except.ok a) := by
  cases hp : p.ptr_ <;> simp [opStar, opArrow, hp]

/-- Witness for C3 at concrete handles: a non-empty handle dereferences to
its value address, an empty one raises the error. -/
theorem C3_deref_null_access_iff_empty_witness :
    opStar ⟨some 3, some 0⟩ = Except.ok 3 ∧
    opArrow ⟨some 3, some 0⟩ = Except.ok 3 ∧
    opStar ⟨none, some 0⟩ = Except.error ⟨⟩ := by
  refine ⟨((C3_deref_null_access_iff_empty ⟨some 3, some 0⟩).2.2 3 rfl).1,
    ((C3_deref_null_access_iff_empty ⟨some 3, some 0⟩).2.2 3 rfl).2,
    (C3_deref_null_access_iff_empty ⟨none, some 0⟩).1.mpr rfl⟩

/-- C8: self copy-assignment and self move-assignment (the `this == &rhs`
branch of both operators) are no-ops: the heap is untouched (in particular
no release of the shared storage happens) and the handle keeps its state. -/
theorem C8_self_assignment_noop (h : Heap T) (p : Ptr) :
    copyAssign h p p true = some (h, p) ∧
    moveAssign h p p true = some (h, p, p) :=
  ⟨rfl, rfl⟩

/-- C9: both raw-pointer constructors, handed a null raw pointer, produce a
handle that is empty — dereference raises the null-access error — while its
share-count query returns 1, not 0; the consuming overload also nulls the
caller's variable (already null here). -/
theorem C9_null_raw_ctor_empty_count_one (h : Heap T) :
    ((mkFromRaw h none).2.ptr_ = none ∧
      opStar (mkFromRaw h none).2 = Except.error ⟨⟩ ∧
      ref_count (mkFromRaw h none).1 (mkFromRaw h none).2 = some 1 ∧
      ¬ref_count (mkFromRaw h none).1 (mkFromRaw h none).2 = some 0) ∧
    ((mkFromRawMove h none).2.1.ptr_ = none ∧
      opStar (mkFromRawMove h none).2.1 = Except.error ⟨⟩ ∧
      ref_count (mkFromRawMove h none).1 (mkFromRawMove h none).2.1 = some 1 ∧
      (mkFromRawMove h none).2.2 = none) := by
  refine ⟨⟨rfl, rfl, ?_, ?_⟩, rfl, rfl, ?_, rfl⟩ <;>
    simp [ref_count, mkFromRaw, mkFromRawMove]

/-- C4 (evaluation at the failing input): move-assigning the raw-constructed
handle of `exHeapMA` into the default-constructed one.  The PC variant
leaves the source fully cleared (`⟨none, none⟩`); the `main.cpp` variant —
whose body writes `rhs.red_`, a misspelling of `rhs.ref_` — leaves the
source's count reference set to `some 1`, so the source is not fully
emptied.  Both variants agree on the transferred handle and on the shared
count (cell 1 still holds 1: the move does not change it). -/
theorem C4_moveAssign_main_cpp_source_not_cleared :
    (moveAssign exHeapMA exTgt exSrc false).map (fun z => z.2.2) =
      some ⟨none, none⟩ ∧
    (MainCpp.moveAssign exHeapMA exTgt exSrc false).map (fun z => z.2.2) =
      some ⟨none, some 1⟩ ∧
    ¬(MainCpp.moveAssign exHeapMA exTgt exSrc false).map (fun z => z.2.2) =
      some ⟨none, none⟩ ∧
    exHeapMA.readRef 1 = some 1 ∧
    (moveAssign exHeapMA exTgt exSrc false).map
        (fun z => (z.2.1, z.1.readRef 1)) =
      some (⟨some 5, some 1⟩, some 1) ∧
    (MainCpp.moveAssign exHeapMA exTgt exSrc false).map
        (fun z => (z.2.1, z.1.readRef 1)) =
      some (⟨some 5, some 1⟩, some 1) := by
  refine ⟨rfl, rfl, by decide, rfl, rfl, rfl⟩

/-- C10 (counterexample): at the state of `exHeapMA`, the move-assignment
operators of the two source files disagree on the resulting source handle,
so the two classes do not implement the same behaviour operation for
operation. -/
theorem C10_counterexample_variants_differ :
    ¬(MainCpp.moveAssign exHeapMA exTgt exSrc false).map (fun z => z.2.2) =
      (moveAssign exHeapMA exTgt exSrc false).map (fun z => z.2.2) ∧
    ¬MainCpp.moveAssign exHeapMA exTgt exSrc false =
      moveAssign exHeapMA exTgt exSrc false := by
  constructor
  · decide
  · intro hcon
    have h2 := congrArg (Option.map (fun z => z.2.2)) hcon
    exact absurd h2 (by decide)

/-- C10 amended: the two classes agree operation for operation — both
constructors, copy and move construction, copy assignment, clone, the count
query, both access operators, destruction, the self-assignment branch of
move assignment, and even the heap effect and assigned handle of move
assignment — except that the `main.cpp` move assignment does not clear the
moved-from source's count reference (see the counterexample). -/
theorem C10_amended_agree_except_moveAssign_source :
    (∀ h : Heap T, MainCpp.mkDefault h = mkDefault h) ∧
    (∀ (h : Heap T) raw, MainCpp.mkFromRaw h raw = mkFromRaw h raw) ∧
    (∀ (h : Heap T) raw, MainCpp.mkFromRawMove h raw = mkFromRawMove h raw) ∧
    (∀ (h : Heap T) rhs, MainCpp.mkCopy h rhs = mkCopy h rhs) ∧
    (∀ (h : Heap T) rhs, MainCpp.mkMove h rhs = mkMove h rhs) ∧
    (∀ (h : Heap T) p, MainCpp.release h p = release h p) ∧
    (∀ (h : Heap T) l r b, MainCpp.copyAssign h l r b = copyAssign h l r b) ∧
    (∀ (h : Heap T) p, MainCpp.clone h p = clone h p) ∧
    (∀ (h : Heap T) p, MainCpp.ref_count h p = ref_count h p) ∧
    (∀ p, MainCpp.opStar p = opStar p ∧ MainCpp.opArrow p = opArrow p) ∧
    (∀ (h : Heap T) p, MainCpp.destructor h p = destructor h p) ∧
    (∀ (h : Heap T) l r, MainCpp.moveAssign h l r true = moveAssign h l r true) ∧
    (∀ (h : Heap T) l r b,
      (MainCpp.moveAssign h l r b).map (fun w => (w.1, w.2.1)) =
        (moveAssign h l r b).map (fun w => (w.1, w.2.1))) := by
  refine ⟨fun _ => rfl, fun _ _ => rfl, fun _ _ => rfl, fun _ _ => rfl,
    fun _ _ => rfl, fun _ _ => rfl, fun _ _ _ _ => rfl, fun _ _ => rfl,
    fun _ _ => rfl, fun _ => ⟨rfl, rfl⟩, fun _ _ => rfl, fun _ _ _ => rfl,
    ?_⟩
  intro h l r b
  cases b with
  | true => rfl
  | false =>
    cases hrel : release h l with
    | none =>
      have ha : MainCpp.moveAssign h l r false = none := by
        simp [MainCpp.moveAssign,
          show MainCpp.release h l = release h l from rfl, hrel]
      have hb : moveAssign h l r false = none := by
        simp [moveAssign, hrel]
      rw [ha, hb]
    | some z =>
      obtain ⟨h1, p1⟩ := z
      have ha : MainCpp.moveAssign h l r false =
          some (h1, ⟨r.ptr_, r.ref_⟩, ⟨none, r.ref_⟩) := by
        simp [MainCpp.moveAssign,
          show MainCpp.release h l = release h l from rfl, hrel]
      have hb : moveAssign h l r false =
          some (h1, ⟨r.ptr_, r.ref_⟩, ⟨none, none⟩) := by
        simp [moveAssign, hrel]
      rw [ha, hb]
      rfl

/-- C5 (counterexample): destroying the only (default-constructed, empty)
handle decrements its count cell from 0 to -1; the decremented count never
"reaches 0", so the count allocation is never freed even though after the
call no live handle references it — the count cell of an empty alias group
leaks. -/
theorem C5_counterexample_empty_group_count_cell_leak :
    (release (mkDefault (emptyHeap Int)).1 (mkDefault (emptyHeap Int)).2).map
        (fun z => (z.1.readRef 0, z.2)) =
      some (some (-1), ⟨none, none⟩) := by
  decide

/-- C5 amended: the release step — run on every destruction and every
re-pointing assignment — always clears the handle's own references, so a
reused or destroyed handle never re-releases the same storage (re-release is
a no-op), and it frees both the value and the count allocation exactly when
the decremented count reaches 0 (count 1 before the call), leaving all other
value cells untouched otherwise; however the count allocation of an empty
alias group (count ≤ 0) is never freed and leaks (see the counterexample),
so "neither is ever leaked" fails for empty groups. -/
theorem C5_amended_release_frees_exactly_at_zero (h : Heap T) (p : Ptr) :
    (∀ h' p', release h p = some (h', p') →
      p' = ⟨none, none⟩ ∧ release h' p' = some (h', ⟨none, none⟩)) ∧
    (∀ c n, p.ref_ = some c → h.readRef c = some n →
      (n = 1 →
        ∃ h', release h p = some (h', ⟨none, none⟩) ∧
          h'.readRef c = none ∧
          ∀ a, p.ptr_ = some a → h'.readVal a = none) ∧
      (n ≠ 1 →
        ∃ h', release h p = some (h', ⟨none, none⟩) ∧
          h'.readRef c = some (n - 1) ∧
          ∀ x, h'.readVal x = h.readVal x)) := by
  constructor
  · intro h' p' he
    obtain ⟨hp', -⟩ := release_spec h p h' p' he
    subst hp'
    exact ⟨rfl, rfl⟩
  · intro c n hc hn
    constructor
    · intro h1
      subst h1
      refine ⟨((h.writeRef c (1 - 1)).freeVal p.ptr_).freeRef c, ?_, ?_, ?_⟩
      · simp [release, hc, hn]
      · exact Heap.readRef_freeRef_self _ _
      · intro a ha
        rw [Heap.readVal_freeRef, ha, Heap.readVal_freeVal_self]
    · intro hne
      have hz : ¬n - 1 = 0 := by omega
      refine ⟨h.writeRef c (n - 1), ?_, ?_, fun x => rfl⟩
      · simp [release, hc, hn, hz]
      · exact Heap.readRef_writeRef_self _ _ _

/-- Witness for C5 at concrete inputs: releasing a sole owner (count 1)
frees both cells; releasing a member of a group of two (count 2) just
decrements the cell and frees nothing. -/
theorem C5_amended_release_frees_exactly_at_zero_witness :
    (∃ h', release exHeapOwn1 ⟨some 0, some 0⟩ = some (h', ⟨none, none⟩) ∧
      h'.readRef 0 = none ∧
      ∀ a, (⟨some 0, some 0⟩ : Ptr).ptr_ = some a → h'.readVal a = none) ∧
    (∃ h', release exHeapShared ⟨some 0, some 0⟩ = some (h', ⟨none, none⟩) ∧
      h'.readRef 0 = some (2 - 1) ∧
      ∀ x, h'.readVal x = exHeapShared.readVal x) :=
  ⟨((C5_amended_release_frees_exactly_at_zero exHeapOwn1
      ⟨some 0, some 0⟩).2 0 1 rfl rfl).1 rfl,
   ((C5_amended_release_frees_exactly_at_zero exHeapShared
      ⟨some 0, some 0⟩).2 0 2 rfl rfl).2 (by decide)⟩

/-- C7 (counterexample): copy-assigning between two distinct handles of the
same alias group (both `⟨some 0, some 0⟩`, shared cell 0 holding 2).  The
release inside the assignment first decrements the shared cell, and the
adoption re-increments it, so the shared count stays 2 instead of increasing
by exactly 1 to 3 — the claim fails for a target that already aliases the
source's group. -/
theorem C7_counterexample_same_group_assignment :
    exHeapShared.readRef 0 = some 2 ∧
    (copyAssign exHeapShared ⟨some 0, some 0⟩ ⟨some 0, some 0⟩ false).map
        (fun z => z.1.readRef 0) = some (some 2) ∧
    ¬(copyAssign exHeapShared ⟨some 0, some 0⟩ ⟨some 0, some 0⟩ false).map
        (fun z => z.1.readRef 0) = some (some 3) := by
  refine ⟨rfl, by decide, by decide⟩

/-- C7 amended: copy construction from a non-empty handle increments the
shared count by exactly 1, observably through every handle sharing the cell;
copy assignment adopting a non-empty source does the same provided the
target was not already aliasing the source's count cell (otherwise its
release first decrements that very cell and the net count is unchanged, see
the counterexample); copying an empty handle performs no increment. -/
theorem C7_amended_copy_increments_by_one (h : Heap T) (src : Ptr) :
    (∀ a c n, src.ptr_ = some a → src.ref_ = some c → h.readRef c = some n →
      ∃ h1, mkCopy h src = some (h1, ⟨src.ptr_, src.ref_⟩) ∧
        h1.readRef c = some (n + 1) ∧
        ∀ q : Ptr, q.ref_ = some c → ref_count h1 q = some (n + 1)) ∧
    (src.ptr_ = none → mkCopy h src = some (h, ⟨src.ptr_, src.ref_⟩)) ∧
    (∀ tgt a c n, src.ptr_ = some a → src.ref_ = some c →
      h.readRef c = some n →
      (tgt.ref_ = none ∨
        ∃ c0 m, tgt.ref_ = some c0 ∧ c0 ≠ c ∧ h.readRef c0 = some m) →
      ∃ h1, copyAssign h tgt src false = some (h1, ⟨src.ptr_, src.ref_⟩) ∧
        h1.readRef c = some (n + 1) ∧
        ∀ q : Ptr, q.ref_ = some c → ref_count h1 q = some (n + 1)) := by
  refine ⟨?_, ?_, ?_⟩
  · intro a c n hp hr hn
    refine ⟨h.writeRef c (n + 1), mkCopy_eq_live h src a c n hp hr hn,
      Heap.readRef_writeRef_self _ _ _, ?_⟩
    intro q hq
    simp [ref_count, hq]
  · intro hp
    exact mkCopy_eq_empty h src hp
  · intro tgt a c n hp hr hn htgt
    have hlive : tgt.ref_ = none ∨
        ∃ c0 m, tgt.ref_ = some c0 ∧ h.readRef c0 = some m := by
      rcases htgt with h1 | ⟨c0, m, h1, h2, h3⟩
      · exact Or.inl h1
      · exact Or.inr ⟨c0, m, h1, h3⟩
    have hcne : ∀ c0, tgt.ref_ = some c0 → c ≠ c0 := by
      intro c0 hc0
      rcases htgt with h1 | ⟨c1, m, h1, h2, h3⟩
      · rw [h1] at hc0
        cases hc0
      · rw [h1] at hc0
        have hcc : c1 = c0 := Option.some_inj.mp hc0
        subst hcc
        exact fun heq => h2 heq.symm
    obtain ⟨hmid, hrel, hother⟩ := release_total h tgt hlive
    have hcc : hmid.readRef c = some n := (hother c hcne).trans hn
    refine ⟨hmid.writeRef c (n + 1), ?_,
      Heap.readRef_writeRef_self _ _ _, ?_⟩
    · rw [copyAssign_eq_bind, hrel]
      exact mkCopy_eq_live hmid src a c n hp hr hcc
    · intro q hq
      simp [ref_count, hq]

/-- Witness for C7 at concrete inputs: copy-constructing from a handle of a
group with count 2 yields count 3 everywhere in the group, and so does
copy-assigning it into an unrelated (moved-from, fully null) handle. -/
theorem C7_amended_copy_increments_by_one_witness :
    (∃ h1, mkCopy exHeapShared ⟨some 0, some 0⟩ =
        some (h1, ⟨some 0, some 0⟩) ∧
      h1.readRef 0 = some (2 + 1) ∧
      ∀ q : Ptr, q.ref_ = some 0 → ref_count h1 q = some (2 + 1)) ∧
    (∃ h1, copyAssign exHeapShared ⟨none, none⟩ ⟨some 0, some 0⟩ false =
        some (h1, ⟨some 0, some 0⟩) ∧
      h1.readRef 0 = some (2 + 1) ∧
      ∀ q : Ptr, q.ref_ = some 0 → ref_count h1 q = some (2 + 1)) :=
  ⟨(C7_amended_copy_increments_by_one exHeapShared ⟨some 0, some 0⟩).1
      0 0 2 rfl rfl rfl,
   (C7_amended_copy_increments_by_one exHeapShared ⟨some 0, some 0⟩).2.2
      ⟨none, none⟩ 0 0 2 rfl rfl rfl (Or.inl rfl)⟩

/-- C1 (counterexample): `nullRawState` is reachable through the public
operations (one raw-pointer construction handed a null pointer), and its
single handle is empty (it holds no value) while the share-count query
returns 1, not 0 — the "count 0 iff empty" equivalence fails on it. -/
theorem C1_counterexample_null_raw_empty_count_one :
    Reach true nullRawState ∧
    (mkFromRaw (emptyHeap Int) none).2 ∈ nullRawState.handles ∧
    (mkFromRaw (emptyHeap Int) none).2.ptr_ = none ∧
    ref_count nullRawState.heap (mkFromRaw (emptyHeap Int) none).2 = some 1 ∧
    ¬ref_count nullRawState.heap (mkFromRaw (emptyHeap Int) none).2 =
      some 0 := by
  refine ⟨?_,
    Multiset.mem_cons_self (mkFromRaw (emptyHeap Int) none).2
      (initState Int).handles,
    rfl, by decide, by decide⟩
  exact Reach.step Reach.init
    (Step.rawCtorNull (initState Int)
      (mkFromRaw (emptyHeap Int) none).1
      (mkFromRaw (emptyHeap Int) none).2 rfl rfl)

/-- C1 amended: in every reachable state — even when the raw-pointer
constructors may be handed null pointers — a handle whose share-count query
returns 0 is empty, and a freshly constructed empty handle is empty with
count 0.  The converse direction of the claim ("empty implies count 0") is
false: see the counterexample, where a handle constructed from a null raw
pointer is empty with count 1. -/
theorem C1_amended_count_zero_implies_empty :
    (∀ (b : Bool) (s : State T), Reach b s → ∀ p ∈ s.handles,
      ref_count s.heap p = some 0 → p.ptr_ = none) ∧
    (∀ h : Heap T, (mkDefault h).2.ptr_ = none ∧
      ref_count (mkDefault h).1 (mkDefault h).2 = some 0) := by
  constructor
  · intro b s hr p hp hq
    cases hpe : p.ptr_ with
    | none => rfl
    | some a =>
      exfalso
      cases hrc : p.ref_ with
      | none => simp [ref_count, hrc] at hq
      | some c =>
        simp only [ref_count, hrc] at hq
        have h0 := (reach_inv hr).cnt p hp c a hrc hpe
        have h1 : (0 : ℤ) = ((nShare s.handles c : ℕ) : ℤ) :=
          Option.some_inj.mp (hq.symm.trans h0)
        have h2 := nShare_pos s.handles p hp c hrc
        omega
  · intro h
    refine ⟨rfl, ?_⟩
    simp [ref_count, mkDefault]

/-- Witness for C1 at a concrete reachable state: the default-constructed
handle's query returns 0, so the theorem concludes it is empty. -/
theorem C1_amended_count_zero_implies_empty_witness :
    (mkDefault (emptyHeap Int)).2.ptr_ = none :=
  C1_amended_count_zero_implies_empty.1 true defaultState
    (Reach.step Reach.init
      (Step.defaultCtor (initState Int) (mkDefault (emptyHeap Int)).1
        (mkDefault (emptyHeap Int)).2 rfl))
    (mkDefault (emptyHeap Int)).2
    (Multiset.mem_cons_self (mkDefault (emptyHeap Int)).2
      (initState Int).handles)
    (by decide)

/-- C6 (counterexample): `movedState` is reachable (raw construction from a
live value, then move construction), and the moved-from source handle has a
null count reference: the share-count query `return *ref_;` dereferences a
null pointer (undefined behaviour, `none` in the embedding) instead of
totally returning a count — "never fails, including for the source of a
move" is false. -/
theorem C6_counterexample_query_after_move_undefined :
    Reach false movedState ∧
    (⟨none, none⟩ : Ptr) ∈ movedState.handles ∧
    ref_count movedState.heap (⟨none, none⟩ : Ptr) = none := by
  refine ⟨?_, ?_, rfl⟩
  · exact Reach.step (Reach.step Reach.init
      (Step.rawCtor (initState Int) 0 (mkFromRaw (emptyHeap Int) (some 0)).1
        (mkFromRaw (emptyHeap Int) (some 0)).2 rfl))
      (Step.moveCtor rawState (mkFromRaw (emptyHeap Int) (some 0)).2
        (initState Int).handles rfl
        (mkMove rawState.heap (mkFromRaw (emptyHeap Int) (some 0)).2).1
        (mkMove rawState.heap (mkFromRaw (emptyHeap Int) (some 0)).2).2.1
        (mkMove rawState.heap (mkFromRaw (emptyHeap Int) (some 0)).2).2.2
        rfl)
  · show (⟨none, none⟩ : Ptr) ∈
      (mkMove rawState.heap (mkFromRaw (emptyHeap Int) (some 0)).2).2.1 ::ₘ
        (mkMove rawState.heap (mkFromRaw (emptyHeap Int) (some 0)).2).2.2 ::ₘ
          (initState Int).handles
    exact Multiset.mem_cons_of_mem (Multiset.mem_cons_self _ _)

/-- C6 amended: in every state reachable with the raw-pointer constructors
applied only to non-null pointers, the share-count query succeeds on every
handle whose count reference is non-null; on a handle with a null count
reference — a moved-from source — the query dereferences a null pointer and
is undefined (`none`), which is the only way it can fail. -/
theorem C6_amended_query_total_unless_moved_from {s : State T}
    (hr : Reach false s) :
    ∀ p ∈ s.handles,
      (∀ c, p.ref_ = some c → ∃ n, ref_count s.heap p = some n) ∧
      (p.ref_ = none → ref_count s.heap p = none) := by
  intro p hp
  constructor
  · intro c hc
    cases hpe : p.ptr_ with
    | none =>
      obtain ⟨m, hm, -⟩ := reach_ecnp hr p hp c hc hpe
      exact ⟨m, by simp [ref_count, hc, hm]⟩
    | some a =>
      have h0 := (reach_inv hr).cnt p hp c a hc hpe
      exact ⟨((nShare s.handles c : ℕ) : ℤ), by simp [ref_count, hc, h0]⟩
  · intro hc
    simp [ref_count, hc]

/-- Witness for C6 at a concrete reachable state: the query on a freshly
default-constructed handle succeeds. -/
theorem C6_amended_query_total_unless_moved_from_witness :
    ∃ n, ref_count defaultState.heap (mkDefault (emptyHeap Int)).2 =
      some n :=
  (C6_amended_query_total_unless_moved_from
    (Reach.step Reach.init
      (Step.defaultCtor (initState Int) (mkDefault (emptyHeap Int)).1
        (mkDefault (emptyHeap Int)).2 rfl))
    (mkDefault (emptyHeap Int)).2
    (Multiset.mem_cons_self (mkDefault (emptyHeap Int)).2
      (initState Int).handles)).1 0 rfl

end SmartPointers
